import Mathlib

/-!
Verification of the go-blue single-pass compiler (`src/compiler/compiler.go`).

The compiler drives a pull-based token source through a precedence-climbing
parser and emits bytecode into a chunk.  The `Compiler` methods of
`compiler.go` are translated one-to-one below.  The token source
(`src/parser`), the chunk container and the static parse-rule table are not
part of the provided sources; they are modelled from the specification and
marked as such.  Go's unbounded mutual recursion is embedded with an explicit
fuel parameter; running out of fuel is the distinguished outcome
`Outcome.noFuel`, and a Go runtime panic is the outcome `Outcome.crash`.
All recursion is structural so every definition evaluates by `decide`.
-/

namespace GoBlue

/-- Modelled from the spec: the token type tag space of the external token
source (`src/parser`, not under the provided sources).  It contains
end-of-input, newline, error, the literal tokens, the keywords used by the
compiler and the operator/punctuation set of the parse-rule table. -/
inductive TokenType where
  | Eof | Error | Newline | Semicolon
  | LeftParen | RightParen | LeftBrace | RightBrace | Dot
  | Plus | Minus | Star | Slash | Caret | Percent
  | Bang | BangEqual | Equal | EqualEqual
  | Greater | GreaterEqual | Less | LessEqual
  | Number | String | True | False | Nil
  | Return | Fn | Identifier
  deriving DecidableEq, Repr

/-- Modelled from the spec: a token of the external token source: type tag,
source lexeme and source line number. -/
structure Token where
  type : TokenType
  lexeme : String
  line : Nat
  deriving DecidableEq, Repr

/-- The token the source yields once the stream is exhausted. -/
def eofToken : Token := ⟨TokenType.Eof, "", 0⟩

/-- Modelled from the spec: the pull-based token source with one-token
lookahead (`src/parser`, not under the provided sources).  It exposes the
current and previous token and advances on demand; the remaining stream is
the list `tokens`. -/
structure Parser where
  tokens : List Token
  current : Token
  previous : Token
  deriving DecidableEq, Repr

/-- Modelled from the spec: creating a token source over a finite stream. -/
def NewParser (toks : List Token) : Parser := ⟨toks, eofToken, eofToken⟩

/-- Modelled from the spec: pulling the next token; an exhausted stream
yields the end-of-input token. -/
def Parser.NextToken (p : Parser) : Token × Parser :=
  match p.tokens with
  | [] => (eofToken, p)
  | t :: ts => (t, { p with tokens := ts })

def Parser.SetCurrent (p : Parser) (t : Token) : Parser := { p with current := t }

def Parser.SetPrevious (p : Parser) (t : Token) : Parser := { p with previous := t }

/-- Modelled from the spec: the runtime value union (`src/value`, not under
the provided sources).  The Number payload is kept as its source lexeme
because no verified claim inspects numeric decoding. -/
inductive Value where
  | number (lexeme : String)
  | str (s : String)
  | boolean (b : Bool)
  | nil
  deriving DecidableEq, Repr

/-- The opcode set of the bytecode, as listed by the spec. -/
inductive OpCode where
  | Constant | Nil | True | False | Pop | Return
  | Negate | Not
  | Add | Subtract | Multiply | Divide | Exponentiate | Reminder
  | Equal | NotEqual | Greater | GreaterEqual | Less | LessEqual
  deriving DecidableEq, Repr

/-- Modelled from the spec: each opcode is a single byte; the numbering
follows the spec's listing order (the concrete values are not visible in the
provided sources and no claim depends on them, only on distinctness). -/
def OpCode.byte : OpCode → Nat
  | .Constant => 0
  | .Nil => 1
  | .True => 2
  | .False => 3
  | .Pop => 4
  | .Return => 5
  | .Negate => 6
  | .Not => 7
  | .Add => 8
  | .Subtract => 9
  | .Multiply => 10
  | .Divide => 11
  | .Exponentiate => 12
  | .Reminder => 13
  | .Equal => 14
  | .NotEqual => 15
  | .Greater => 16
  | .GreaterEqual => 17
  | .Less => 18
  | .LessEqual => 19

/-- Modelled from the spec: the chunk is an instruction byte sequence plus an
append-only constant pool (the chunk file is not under the provided
sources). -/
structure Chunk where
  code : List Nat
  constants : List Value
  deriving DecidableEq, Repr

def NewChunk : Chunk := ⟨[], []⟩

def Chunk.pushCode (ch : Chunk) (b : Nat) : Chunk :=
  { ch with code := ch.code ++ [b] }

/-- Modelled from the spec: appending a constant returns the new entry's
index as an unsigned 16-bit number. -/
def Chunk.pushConstant (ch : Chunk) (v : Value) : Nat × Chunk :=
  (ch.constants.length % 65536, { ch with constants := ch.constants ++ [v] })

/-- The compiler state of `compiler.go`: token source, output chunk and the
two sticky error flags.  The `errors` field records what `errorAt` writes to
the caller-visible error channel. -/
structure Compiler where
  p : Parser
  chunk : Chunk
  hadError : Bool
  panicMode : Bool
  errors : List (Token × String)
  deriving DecidableEq, Repr

def NewCompiler (toks : List Token) : Compiler :=
  ⟨NewParser toks, NewChunk, false, false, []⟩

/-- `errorAt` of compiler.go: while panicMode is set nothing is recorded;
otherwise panicMode is entered, the diagnostic is written and hadError is
set. -/
def Compiler.errorAt (c : Compiler) (token : Token) (message : String) : Compiler :=
  if c.panicMode then c
  else { c with panicMode := true, hadError := true,
                errors := c.errors ++ [(token, message)] }

/-- `error` of compiler.go: report at the previous token. -/
def Compiler.error (c : Compiler) (message : String) : Compiler :=
  c.errorAt c.p.previous message

/-- `errorAtCurrent` of compiler.go: report at the current token. -/
def Compiler.errorAtCurrent (c : Compiler) (message : String) : Compiler :=
  c.errorAt c.p.current message

/-- The loop body of `consumeNewlines` of compiler.go: while the current
token is a newline, pull the next token.  Written over the explicit token
list so the recursion is structural. -/
def consumeNewlinesGo : List Token → Token → Token → Parser
  | toks, cur, prev =>
    if cur.type = TokenType.Newline then
      match toks with
      | [] => ⟨[], eofToken, prev⟩
      | t :: ts => consumeNewlinesGo ts t prev
    else ⟨toks, cur, prev⟩

/-- `consumeNewlines` of compiler.go. -/
def Compiler.consumeNewlines (c : Compiler) : Compiler :=
  { c with p := consumeNewlinesGo c.p.tokens c.p.current c.p.previous }

/-- `skipNewlines` of compiler.go: newlines are insignificant after a
newline, a brace, a separator or a dot. -/
def Compiler.skipNewlines (c : Compiler) : Compiler :=
  match c.p.previous.type with
  | .Newline | .LeftBrace | .RightBrace | .Semicolon | .Dot => c.consumeNewlines
  | _ => c

/-- The fetch loop of `advance` of compiler.go: pull tokens, reporting and
skipping error tokens; the stream's caller keeps `toks = c.p.tokens`. -/
def advanceLoop : List Token → Compiler → Compiler
  | [], c => { c with p := { c.p with tokens := [], current := eofToken } }
  | t :: ts, c =>
    if t.type = TokenType.Error then
      advanceLoop ts (({ c with p := { c.p with tokens := ts, current := t } }).errorAtCurrent t.lexeme)
    else { c with p := { c.p with tokens := ts, current := t } }

/-- `advance` of compiler.go: previous takes the current token, the fetch
loop installs the next non-error token, then insignificant newlines are
skipped. -/
def Compiler.advance (c : Compiler) : Compiler :=
  (advanceLoop c.p.tokens { c with p := c.p.SetPrevious c.p.current }).skipNewlines

/-- `check` of compiler.go: a newline counts as present right after a closing
brace; otherwise the current token's type is compared. -/
def Compiler.check (c : Compiler) (tokenType : TokenType) : Bool :=
  if tokenType = TokenType.Newline ∧ c.p.previous.type = TokenType.RightBrace then
    true
  else
    decide (c.p.current.type = tokenType)

/-- `consume` of compiler.go. -/
def Compiler.consume (c : Compiler) (tokenType : TokenType) (message : String) : Compiler :=
  if c.check tokenType then c.advance else c.errorAtCurrent message

/-- `match` of compiler.go (renamed: `match` is reserved in Lean): consume
the current token when the check succeeds. -/
def Compiler.matchTok (c : Compiler) (tokenType : TokenType) : Bool × Compiler :=
  if c.check tokenType then (true, c.advance) else (false, c)

def Compiler.emitByte (c : Compiler) (b : Nat) : Compiler :=
  { c with chunk := c.chunk.pushCode b }

/-- `emitShort` of compiler.go: big-endian 16-bit operand. -/
def Compiler.emitShort (c : Compiler) (short : Nat) : Compiler :=
  (c.emitByte ((short / 256) % 256)).emitByte (short % 256)

def Compiler.emitOpCode (c : Compiler) (op : OpCode) : Compiler :=
  c.emitByte op.byte

def Compiler.emitConstant (c : Compiler) (v : Value) : Compiler :=
  match c.chunk.pushConstant v with
  | (constant, ch) => (({ c with chunk := ch }).emitOpCode .Constant).emitShort constant

def Compiler.emitReturn (c : Compiler) : Compiler :=
  (c.emitOpCode .Nil).emitOpCode .Return

/-- `expectNewlineOrSemicolon` of compiler.go: the statement terminator rule
with its three early exits. -/
def Compiler.expectNewlineOrSemicolon (c : Compiler) : Compiler :=
  if c.p.previous.type = TokenType.RightBrace then c
  else if c.p.current.type = TokenType.RightBrace then c
  else if c.p.previous.type = TokenType.Eof ∨ c.p.current.type = TokenType.Eof then c
  else
    match c.matchTok TokenType.Semicolon with
    | (true, c1) => c1
    | (false, c1) => c1.consume TokenType.Newline "Expect newline or ';'."

/-- `number` of compiler.go: emit the previous token's lexeme as a Number
constant (the float decoding of the lexeme is kept symbolic in `Value`). -/
def Compiler.number (c : Compiler) (_canAssign : Bool) : Compiler :=
  c.emitConstant (Value.number c.p.previous.lexeme)

/-- `string` of compiler.go: strip exactly the first and last lexeme
character and emit a String constant. -/
def Compiler.string (c : Compiler) (_canAssign : Bool) : Compiler :=
  c.emitConstant (Value.str ((c.p.previous.lexeme.drop 1).dropRight 1))

/-- The per-operator opcode emission at the end of `binary` of compiler.go;
an unlisted operator falls through the switch emitting nothing. -/
def emitBinaryOp (operatorType : TokenType) (c : Compiler) : Compiler :=
  match operatorType with
  | .EqualEqual => c.emitOpCode .Equal
  | .Greater => c.emitOpCode .Greater
  | .GreaterEqual => c.emitOpCode .GreaterEqual
  | .Less => c.emitOpCode .Less
  | .LessEqual => c.emitOpCode .LessEqual
  | .BangEqual => c.emitOpCode .NotEqual
  | .Plus => c.emitOpCode .Add
  | .Minus => c.emitOpCode .Subtract
  | .Slash => c.emitOpCode .Divide
  | .Star => c.emitOpCode .Multiply
  | .Caret => c.emitOpCode .Exponentiate
  | .Percent => c.emitOpCode .Reminder
  | _ => c

/-- The precedence levels, lowest to highest binding power. -/
def PrecedenceNone : Nat := 0
def PrecedenceAssignment : Nat := 1
def PrecedenceEquality : Nat := 2
def PrecedenceComparison : Nat := 3
def PrecedenceTerm : Nat := 4
def PrecedenceFactor : Nat := 5
def PrecedenceExponent : Nat := 6
def PrecedenceUnary : Nat := 7
def PrecedencePrimary : Nat := 8

/-- The parse behaviors a rule-table entry can point at (a closed enumeration
standing for compiler.go's function references). -/
inductive RuleFn where
  | numberFn | stringFn | literalFn | unaryFn | binaryFn
  deriving DecidableEq, Repr

/-- A parse-rule table entry: optional starting behavior (`pfx`, the Go
table's prefix slot), optional continuing behavior (`ifx`, the Go table's
infix slot) and the binding level. -/
structure ParseRule where
  pfx : Option RuleFn
  ifx : Option RuleFn
  precedence : Nat
  deriving DecidableEq, Repr

/-- Modelled from the spec: the static parse-rule table (not under the
provided sources).  Number/String/keyword literals and the two unary
operators have a starting behavior; every binary operator has the continuing
behavior at its table level; every other token has no rule and level
`PrecedenceNone`. -/
def parseRules : TokenType → ParseRule
  | .Number => ⟨some .numberFn, none, PrecedenceNone⟩
  | .String => ⟨some .stringFn, none, PrecedenceNone⟩
  | .True => ⟨some .literalFn, none, PrecedenceNone⟩
  | .False => ⟨some .literalFn, none, PrecedenceNone⟩
  | .Nil => ⟨some .literalFn, none, PrecedenceNone⟩
  | .Bang => ⟨some .unaryFn, none, PrecedenceNone⟩
  | .Minus => ⟨some .unaryFn, some .binaryFn, PrecedenceTerm⟩
  | .Plus => ⟨none, some .binaryFn, PrecedenceTerm⟩
  | .Slash => ⟨none, some .binaryFn, PrecedenceFactor⟩
  | .Star => ⟨none, some .binaryFn, PrecedenceFactor⟩
  | .Percent => ⟨none, some .binaryFn, PrecedenceFactor⟩
  | .Caret => ⟨none, some .binaryFn, PrecedenceExponent⟩
  | .EqualEqual => ⟨none, some .binaryFn, PrecedenceEquality⟩
  | .BangEqual => ⟨none, some .binaryFn, PrecedenceEquality⟩
  | .Greater => ⟨none, some .binaryFn, PrecedenceComparison⟩
  | .GreaterEqual => ⟨none, some .binaryFn, PrecedenceComparison⟩
  | .Less => ⟨none, some .binaryFn, PrecedenceComparison⟩
  | .LessEqual => ⟨none, some .binaryFn, PrecedenceComparison⟩
  | _ => ⟨none, none, PrecedenceNone⟩

/-- `literal` of compiler.go: its default switch arm is a Go panic. -/
inductive Outcome (α : Type) where
  | ok (a : α)
  | crash (msg : String)
  | noFuel
  deriving DecidableEq, Repr

def Outcome.bind {α β : Type} : Outcome α → (α → Outcome β) → Outcome β
  | .ok a, f => f a
  | .crash m, _ => .crash m
  | .noFuel, _ => .noFuel

/-- `literal` of compiler.go: emit the single-byte opcode of the keyword
literal; any other previous token hits the Go `panic("unreachable")`. -/
def Compiler.literal (c : Compiler) (_canAssign : Bool) : Outcome Compiler :=
  match c.p.previous.type with
  | .False => .ok (c.emitOpCode .False)
  | .True => .ok (c.emitOpCode .True)
  | .Nil => .ok (c.emitOpCode .Nil)
  | _ => .crash "unreachable"

/-- The mutually recursive parse functions of compiler.go, defunctionalized:
each constructor is one pending call of the corresponding Go function. -/
inductive Call where
  | pp (precedence : Nat) (c : Compiler)
  | ifl (precedence : Nat) (canAssign : Bool) (c : Compiler)
  | asgn (canAssign : Bool) (c : Compiler)
  | rul (r : RuleFn) (canAssign : Bool) (c : Compiler)
  | una (canAssign : Bool) (c : Compiler)
  | bin (canAssign : Bool) (c : Compiler)
  | expr (c : Compiler)
  | retSt (c : Compiler)
  | exprSt (c : Compiler)
  | stmt (c : Compiler)
  | decl (c : Compiler)
  | dloop (c : Compiler)

/-- The compiler state a pending call operates on. -/
def Call.state : Call → Compiler
  | .pp _ c => c
  | .ifl _ _ c => c
  | .asgn _ c => c
  | .rul _ _ c => c
  | .una _ c => c
  | .bin _ c => c
  | .expr c => c
  | .retSt c => c
  | .exprSt c => c
  | .stmt c => c
  | .decl c => c
  | .dloop c => c

/-- One fuel-indexed interpreter for the mutually recursive functions of
compiler.go.  `.pp` is `parsePrecedence` (advance; dispatch the prefix slot
or report "Expect expression."; then the infix loop `.ifl` runs while the
current token's table level strictly exceeds the minimum level; finally the
assignment tail `.asgn` mirrors the `canAssign && match(Equal)` check).
`.rul` dispatches a rule-table entry, `.una`/`.bin` are `unary`/`binary`
(`binary` parses its right operand one level above its own table level),
`.expr` is `expression`, `.retSt`/`.exprSt`/`.stmt`/`.decl` are the statement
productions and `.dloop` is Compile's declaration loop. -/
def run : Nat → Call → Outcome Compiler
  | 0, _ => .noFuel
  | fuel + 1, call =>
    match call with
    | .pp precedence c =>
      match (parseRules (c.advance).p.previous.type).pfx with
      | none => .ok ((c.advance).error "Expect expression.")
      | some r =>
        Outcome.bind (run fuel (.rul r (decide (precedence < PrecedenceAssignment)) (c.advance)))
          (fun c1 =>
            Outcome.bind (run fuel (.ifl precedence (decide (precedence < PrecedenceAssignment)) c1))
              (fun c2 => run fuel (.asgn (decide (precedence < PrecedenceAssignment)) c2)))
    | .ifl precedence canAssign c =>
      if precedence < (parseRules c.p.current.type).precedence then
        match (parseRules (c.advance).p.previous.type).ifx with
        | none => .crash "nil infix rule"
        | some r =>
          Outcome.bind (run fuel (.rul r canAssign (c.advance)))
            (fun c1 => run fuel (.ifl precedence canAssign c1))
      else .ok c
    | .asgn canAssign c =>
      if canAssign then
        match c.matchTok TokenType.Equal with
        | (true, c1) => run fuel (.expr (c1.error "Invalid assignment target."))
        | (false, c1) => .ok c1
      else .ok c
    | .rul r canAssign c =>
      match r with
      | .numberFn => .ok (c.number canAssign)
      | .stringFn => .ok (c.string canAssign)
      | .literalFn => c.literal canAssign
      | .unaryFn => run fuel (.una canAssign c)
      | .binaryFn => run fuel (.bin canAssign c)
    | .una _canAssign c =>
      Outcome.bind (run fuel (.pp PrecedenceUnary c))
        (fun c1 =>
          match c.p.previous.type with
          | .Bang => .ok (c1.emitOpCode .Not)
          | .Minus => .ok (c1.emitOpCode .Negate)
          | _ => .crash "unreachable")
    | .bin _canAssign c =>
      Outcome.bind (run fuel (.pp ((parseRules c.p.previous.type).precedence + 1) c))
        (fun c1 => .ok (emitBinaryOp c.p.previous.type c1))
    | .expr c => run fuel (.pp PrecedenceAssignment c)
    | .retSt c =>
      match c.matchTok TokenType.Newline with
      | (true, c1) => .ok c1.emitReturn
      | (false, c1) =>
        Outcome.bind (run fuel (.expr c1))
          (fun c2 =>
            if !(c1.check TokenType.Fn) then .ok ((c2.emitOpCode .Return).expectNewlineOrSemicolon)
            else .ok (c2.emitOpCode .Return))
    | .exprSt c =>
      Outcome.bind (run fuel (.expr c))
        (fun c1 => .ok (((c1.emitOpCode .Pop)).expectNewlineOrSemicolon))
    | .stmt c =>
      match c.matchTok TokenType.Return with
      | (true, c1) => run fuel (.retSt c1)
      | (false, c1) => run fuel (.exprSt c1)
    | .decl c => run fuel (.stmt c)
    | .dloop c =>
      match c.matchTok TokenType.Eof with
      | (true, c1) => .ok c1
      | (false, c1) => Outcome.bind (run fuel (.decl c1)) (fun c2 => run fuel (.dloop c2))

/-- `parsePrecedence` of compiler.go. -/
def parsePrecedence (fuel : Nat) (precedence : Nat) (c : Compiler) : Outcome Compiler :=
  run fuel (.pp precedence c)

/-- The infix loop inside `parsePrecedence` of compiler.go. -/
def infixLoop (fuel : Nat) (precedence : Nat) (canAssign : Bool) (c : Compiler) : Outcome Compiler :=
  run fuel (.ifl precedence canAssign c)

/-- The trailing `canAssign && match(Equal)` check of `parsePrecedence`. -/
def assignTail (fuel : Nat) (canAssign : Bool) (c : Compiler) : Outcome Compiler :=
  run fuel (.asgn canAssign c)

/-- Dispatch of one rule-table slot. -/
def runRule (fuel : Nat) (r : RuleFn) (canAssign : Bool) (c : Compiler) : Outcome Compiler :=
  run fuel (.rul r canAssign c)

/-- `unary` of compiler.go. -/
def unary (fuel : Nat) (canAssign : Bool) (c : Compiler) : Outcome Compiler :=
  run fuel (.una canAssign c)

/-- `binary` of compiler.go. -/
def binary (fuel : Nat) (canAssign : Bool) (c : Compiler) : Outcome Compiler :=
  run fuel (.bin canAssign c)

/-- `expression` of compiler.go. -/
def expression (fuel : Nat) (c : Compiler) : Outcome Compiler :=
  run fuel (.expr c)

/-- `returnStatement` of compiler.go. -/
def returnStatement (fuel : Nat) (c : Compiler) : Outcome Compiler :=
  run fuel (.retSt c)

/-- `expressionStatement` of compiler.go. -/
def expressionStatement (fuel : Nat) (c : Compiler) : Outcome Compiler :=
  run fuel (.exprSt c)

/-- `statement` of compiler.go. -/
def statement (fuel : Nat) (c : Compiler) : Outcome Compiler :=
  run fuel (.stmt c)

/-- `declaration` of compiler.go. -/
def declaration (fuel : Nat) (c : Compiler) : Outcome Compiler :=
  run fuel (.decl c)

/-- The `for !c.match(Eof) c.declaration()` loop of `Compile`. -/
def declLoop (fuel : Nat) (c : Compiler) : Outcome Compiler :=
  run fuel (.dloop c)

/-- The leading loop of `Compile`: advance until the current token is not a
newline. -/
def leadingLoop : Nat → Compiler → Outcome Compiler
  | 0, _ => .noFuel
  | fuel + 1, c =>
    if (c.advance).check TokenType.Newline then leadingLoop fuel (c.advance)
    else .ok (c.advance)

/-- The final-instruction patch of `Compile`: read the byte at index
`len(code)-1` (a Go runtime panic on an empty sequence, signalled by `none`)
and overwrite it with `Return` when it is the `Pop` opcode. -/
def patchLastPop (code : List Nat) : Option (List Nat) :=
  match code.getLast? with
  | none => none
  | some b =>
    some (if b = OpCode.Pop.byte then code.dropLast ++ [OpCode.Return.byte] else code)

/-- `Compile` of compiler.go: leading newline skip, declaration loop, the
final `Pop`-to-`Return` patch, then `nil` (here `none`) when a diagnostic was
recorded, otherwise the chunk. -/
def Compile (fuel : Nat) (toks : List Token) : Outcome (Option Chunk × Compiler) :=
  match fuel with
  | 0 => .noFuel
  | fuel + 1 =>
    match leadingLoop (fuel + 1) (NewCompiler toks) with
    | .ok c1 =>
      match declLoop fuel c1 with
      | .ok c2 =>
        match patchLastPop c2.chunk.code with
        | none => .crash "index out of range"
        | some code =>
          if c2.hadError then .ok (none, { c2 with chunk := { c2.chunk with code := code } })
          else .ok (some { c2.chunk with code := code }, { c2 with chunk := { c2.chunk with code := code } })
      | .crash m => .crash m
      | .noFuel => .noFuel
    | .crash m => .crash m
    | .noFuel => .noFuel

/-! ### Concrete token streams and observation helpers -/

/-- A sample token at source line 1. -/
def tok (ty : TokenType) (lx : String) : Token := ⟨ty, lx, 1⟩

/-- Token stream of the program `1`. -/
def exprOneToks : List Token := [tok .Number "1", tok .Eof ""]

/-- Token stream of the program `1 ^ 2 ^ 3`. -/
def caretChainToks : List Token :=
  [tok .Number "1", tok .Caret "^", tok .Number "2", tok .Caret "^", tok .Number "3", tok .Eof ""]

/-- Token stream of the program `return 1`. -/
def returnOneToks : List Token := [tok .Return "return", tok .Number "1", tok .Eof ""]

/-- Token stream of a return-statement whose expression `1` is immediately
followed by the function-literal introducer `fn`. -/
def returnFnSuffixToks : List Token :=
  [tok .Return "return", tok .Number "1", tok .Fn "fn", tok .Eof ""]

/-- A stream holding one newline and the end-of-input token. -/
def blankToks : List Token := [tok .Newline "\n", tok .Eof ""]

/-- Token stream of the two-error program `+ 1` followed by `+`. -/
def firstErrToks : List Token :=
  [tok .Plus "+", tok .Number "1", tok .Newline "\n", tok .Plus "+", tok .Eof ""]

/-- The code bytes of a successful compilation outcome. -/
def resultCode : Outcome (Option Chunk × Compiler) → Option (List Nat)
  | .ok (some ch, _) => some ch.code
  | _ => none

/-- The value `Compile` hands back on a completed run: `some none` is the
failure signal (Go's nil chunk). -/
def resultOf : Outcome (Option Chunk × Compiler) → Option (Option (List Nat))
  | .ok (r, _) => some (r.map Chunk.code)
  | _ => none

/-- The diagnostics recorded during a completed run. -/
def errorsOf : Outcome (Option Chunk × Compiler) → Option (List (Token × String))
  | .ok (_, st) => some st.errors
  | _ => none

/-- The chunk produced for `exprOneToks` (checked by evaluation). -/
def exprOneChunk : Chunk := ⟨[0, 0, 0, 5], [Value.number "1"]⟩

/-- The final compiler state for `exprOneToks` (checked by evaluation). -/
def exprOneFinal : Compiler := ⟨⟨[], eofToken, tok .Eof ""⟩, exprOneChunk, false, false, []⟩

/-- The final compiler state for `firstErrToks` (checked by evaluation). -/
def firstErrFinal : Compiler :=
  ⟨⟨[], eofToken, tok .Eof ""⟩, ⟨[4, 0, 0, 0, 4, 5], [Value.number "1"]⟩, true, true,
    [(tok .Plus "+", "Expect expression.")]⟩

/-- A compiler state whose previously consumed token is a closing brace. -/
def rbraceState : Compiler :=
  ⟨⟨[], tok .Number "2", tok .RightBrace "\x7d"⟩, NewChunk, false, false, []⟩

/-- A statement end followed by a semicolon token. -/
def stateSemi : Compiler :=
  ⟨⟨[tok .Eof ""], tok .Semicolon ";", tok .Number "1"⟩, NewChunk, false, false, []⟩

/-- A statement end followed by neither newline nor semicolon. -/
def stateNoTerm : Compiler :=
  ⟨⟨[tok .Eof ""], tok .Fn "fn", tok .Number "1"⟩, NewChunk, false, false, []⟩

/-- A state whose next consumed token (`+`) has no prefix rule. -/
def noPfxState : Compiler :=
  ⟨⟨[tok .Eof ""], tok .Plus "+", tok .Number "1"⟩, NewChunk, false, false, []⟩

/-- A state whose next consumed token is a number literal. -/
def numPfxState : Compiler :=
  ⟨⟨[tok .Eof ""], tok .Number "2", tok .Plus "+"⟩, NewChunk, false, false, []⟩

/-- A state whose current token is the `+` operator (table level Term). -/
def plusCurState : Compiler :=
  ⟨⟨[tok .Number "3", tok .Eof ""], tok .Plus "+", tok .Number "1"⟩, NewChunk, false, false, []⟩

/-- A state whose current token is the assignment operator. -/
def equalCurState : Compiler :=
  ⟨⟨[tok .Number "2", tok .Eof ""], tok .Equal "=", tok .Number "1"⟩, NewChunk, false, false, []⟩

/-- Entry state of `returnStatement` for `return fn ...`. -/
def retFnState : Compiler :=
  ⟨⟨[tok .Eof ""], tok .Fn "fn", tok .Return "return"⟩, NewChunk, false, false, []⟩

/-- Entry state of `returnStatement` for `return 1 fn`. -/
def retNumState : Compiler :=
  ⟨⟨[tok .Fn "fn", tok .Eof ""], tok .Number "1", tok .Return "return"⟩, NewChunk, false, false, []⟩

/-- A compiler state that is already in panic mode with its first diagnostic
recorded. -/
def panickedState : Compiler :=
  ⟨⟨[], eofToken, eofToken⟩, NewChunk, true, true, [(tok .Plus "+", "Expect expression.")]⟩

/-! ### The panic-mode invariants

`PanicKeep c r`: if compilation is already in panic mode at `c`, then at `r`
panic mode is still set and neither the diagnostics nor `hadError` changed.
`ErrInv`: panic mode and `hadError` always agree, and at most one diagnostic
has ever been recorded.  `Keep` couples the two; every operation of the
compiler preserves it. -/

def PanicKeep (c r : Compiler) : Prop :=
  c.panicMode = true → r.panicMode = true ∧ r.errors = c.errors ∧ r.hadError = c.hadError

def ErrInv (c : Compiler) : Prop :=
  c.panicMode = c.hadError ∧ (c.hadError = false → c.errors = []) ∧ c.errors.length ≤ 1

def Keep (c r : Compiler) : Prop := PanicKeep c r ∧ (ErrInv c → ErrInv r)

/-! ### Blank token streams -/

/-- A token stream holding only newline and end-of-input tokens. -/
@[reducible]
def allNE (toks : List Token) : Prop :=
  ∀ t ∈ toks, t.type = TokenType.Newline ∨ t.type = TokenType.Eof

/-! ### Field-preservation lemmas -/

@[simp]
theorem errorAt_p (c : Compiler) (t : Token) (m : String) : (c.errorAt t m).p = c.p := by
  unfold Compiler.errorAt; split <;> rfl

@[simp]
theorem errorAt_chunk (c : Compiler) (t : Token) (m : String) : (c.errorAt t m).chunk = c.chunk := by
  unfold Compiler.errorAt; split <;> rfl

@[simp]
theorem error_chunk (c : Compiler) (m : String) : (c.error m).chunk = c.chunk := by
  unfold Compiler.error; simp

@[simp]
theorem errorAtCurrent_chunk (c : Compiler) (m : String) : (c.errorAtCurrent m).chunk = c.chunk := by
  unfold Compiler.errorAtCurrent; simp

@[simp]
theorem consumeNewlinesGo_previous (toks : List Token) (cur prev : Token) :
    (consumeNewlinesGo toks cur prev).previous = prev := by
  induction toks generalizing cur with
  | nil => rw [consumeNewlinesGo]; split <;> rfl
  | cons t ts ih =>
    rw [consumeNewlinesGo]
    split
    · exact ih t
    · rfl

@[simp]
theorem consumeNewlines_chunk (c : Compiler) : (c.consumeNewlines).chunk = c.chunk := rfl

@[simp]
theorem skipNewlines_chunk (c : Compiler) : (c.skipNewlines).chunk = c.chunk := by
  unfold Compiler.skipNewlines; split <;> rfl

@[simp]
theorem advanceLoop_chunk (toks : List Token) (c : Compiler) :
    (advanceLoop toks c).chunk = c.chunk := by
  induction toks generalizing c with
  | nil => rfl
  | cons t ts ih =>
    rw [advanceLoop]
    split
    · rw [ih]; simp
    · rfl

@[simp]
theorem advance_chunk (c : Compiler) : (c.advance).chunk = c.chunk := by
  unfold Compiler.advance; simp

theorem matchTok_snd_chunk (c : Compiler) (ty : TokenType) :
    ((c.matchTok ty).2).chunk = c.chunk := by
  unfold Compiler.matchTok; split <;> simp

/-! ### Outcome.bind inversion -/

theorem bind_ok {α β : Type} {o : Outcome α} {f : α → Outcome β} {b : β}
    (h : Outcome.bind o f = .ok b) : ∃ a, o = .ok a ∧ f a = .ok b := by
  cases o with
  | ok a => exact ⟨a, rfl, h⟩
  | crash m => simp [Outcome.bind] at h
  | noFuel => simp [Outcome.bind] at h

theorem keep_self (c : Compiler) : Keep c c := ⟨fun h => ⟨h, rfl, rfl⟩, id⟩

theorem keep_trans {a b c : Compiler} (h1 : Keep a b) (h2 : Keep b c) : Keep a c := by
  refine ⟨fun hp => ?_, fun hi => h2.2 (h1.2 hi)⟩
  obtain ⟨p1, e1, d1⟩ := h1.1 hp
  obtain ⟨p2, e2, d2⟩ := h2.1 p1
  exact ⟨p2, e2.trans e1, d2.trans d1⟩

theorem keep_of_fields {c r : Compiler} (hp : r.panicMode = c.panicMode)
    (he : r.hadError = c.hadError) (hr : r.errors = c.errors) : Keep c r := by
  refine ⟨fun h => ⟨hp.trans h, hr, he⟩, fun hi => ?_⟩
  unfold ErrInv at hi ⊢
  rw [hp, he, hr]
  exact hi

theorem keep_errorAt (c : Compiler) (t : Token) (m : String) : Keep c (c.errorAt t m) := by
  unfold Compiler.errorAt
  split
  · exact keep_self c
  · rename_i hnp
    have hpm : c.panicMode = false := by revert hnp; cases c.panicMode <;> simp
    refine ⟨fun hp => absurd hp (by rw [hpm]; simp), fun hi => ?_⟩
    obtain ⟨h1, h2, h3⟩ := hi
    have hhe : c.hadError = false := by rw [← h1, hpm]
    have herr : c.errors = [] := h2 hhe
    refine ⟨rfl, ?_, ?_⟩
    · intro h; simp at h
    · simp [herr]

theorem keep_error (c : Compiler) (m : String) : Keep c (c.error m) := keep_errorAt c _ m

theorem keep_errorAtCurrent (c : Compiler) (m : String) : Keep c (c.errorAtCurrent m) :=
  keep_errorAt c _ m

theorem keep_consumeNewlines (c : Compiler) : Keep c c.consumeNewlines :=
  keep_of_fields rfl rfl rfl

theorem keep_skipNewlines (c : Compiler) : Keep c c.skipNewlines := by
  unfold Compiler.skipNewlines
  split
  case _ => exact keep_consumeNewlines c
  case _ => exact keep_consumeNewlines c
  case _ => exact keep_consumeNewlines c
  case _ => exact keep_consumeNewlines c
  case _ => exact keep_consumeNewlines c
  case _ => exact keep_self c

theorem keep_advanceLoop (toks : List Token) (c : Compiler) : Keep c (advanceLoop toks c) := by
  induction toks generalizing c with
  | nil => exact keep_of_fields rfl rfl rfl
  | cons t ts ih =>
    rw [advanceLoop]
    split
    · exact keep_trans (keep_trans (keep_of_fields rfl rfl rfl)
        (keep_errorAtCurrent { c with p := { c.p with tokens := ts, current := t } } t.lexeme))
        (ih _)
    · exact keep_of_fields rfl rfl rfl

theorem keep_advance (c : Compiler) : Keep c c.advance := by
  unfold Compiler.advance
  exact keep_trans
    (keep_trans
      (keep_of_fields (c := c) (r := { c with p := c.p.SetPrevious c.p.current }) rfl rfl rfl)
      (keep_advanceLoop c.p.tokens { c with p := c.p.SetPrevious c.p.current }))
    (keep_skipNewlines (advanceLoop c.p.tokens { c with p := c.p.SetPrevious c.p.current }))

theorem keep_matchTok (c : Compiler) (ty : TokenType) : Keep c ((c.matchTok ty).2) := by
  unfold Compiler.matchTok; split
  · exact keep_advance c
  · exact keep_self c

theorem keep_consume (c : Compiler) (ty : TokenType) (m : String) : Keep c (c.consume ty m) := by
  unfold Compiler.consume; split
  · exact keep_advance c
  · exact keep_errorAtCurrent c m

theorem keep_expect (c : Compiler) : Keep c c.expectNewlineOrSemicolon := by
  unfold Compiler.expectNewlineOrSemicolon
  split
  · exact keep_self c
  split
  · exact keep_self c
  split
  · exact keep_self c
  split
  · rename_i c1 heq
    have h1 := keep_matchTok c TokenType.Semicolon
    rw [heq] at h1
    exact h1
  · rename_i c1 heq
    have h1 : Keep c c1 := by
      have h2 := keep_matchTok c TokenType.Semicolon
      rw [heq] at h2
      exact h2
    exact keep_trans h1 (keep_consume c1 _ _)

theorem keep_literal {c r : Compiler} {ca : Bool} (h : c.literal ca = .ok r) : Keep c r := by
  unfold Compiler.literal at h
  split at h <;> first
    | (cases h; exact keep_of_fields rfl rfl rfl)
    | (cases h)

theorem keep_emitBinaryOp (ty : TokenType) (c : Compiler) : Keep c (emitBinaryOp ty c) := by
  unfold emitBinaryOp; split <;> exact keep_of_fields rfl rfl rfl

/-- Every parse function preserves the panic-mode invariants: a single fuel
induction over the defunctionalized interpreter. -/
theorem run_keep : ∀ (fuel : Nat) (call : Call) (r : Compiler),
    run fuel call = .ok r → Keep call.state r := by
  intro fuel
  induction fuel with
  | zero =>
    intro call r h
    simp [run] at h
  | succ n ih =>
    intro call r h
    cases call with
    | pp prec c =>
      show Keep c r
      simp only [run] at h
      split at h
      · cases h
        exact keep_trans (keep_advance c) (keep_error _ _)
      · obtain ⟨c1, h1, h2⟩ := bind_ok h
        obtain ⟨c2, h3, h4⟩ := bind_ok h2
        have k1 : Keep (c.advance) c1 := ih _ _ h1
        have k2 : Keep c1 c2 := ih _ _ h3
        have k3 : Keep c2 r := ih _ _ h4
        exact keep_trans (keep_advance c) (keep_trans k1 (keep_trans k2 k3))
    | ifl prec ca c =>
      show Keep c r
      simp only [run] at h
      split at h
      · split at h
        · simp at h
        · obtain ⟨c1, h1, h2⟩ := bind_ok h
          exact keep_trans (keep_advance c) (keep_trans (ih _ _ h1) (ih _ _ h2))
      · cases h
        exact keep_self _
    | asgn ca c =>
      show Keep c r
      simp only [run] at h
      split at h
      · split at h
        · rename_i c1 heq
          have hk : Keep c c1 := by
            have h2 := keep_matchTok c TokenType.Equal
            rw [heq] at h2
            exact h2
          exact keep_trans hk (keep_trans (keep_error c1 _) (ih _ _ h))
        · rename_i c1 heq
          cases h
          have h2 := keep_matchTok c TokenType.Equal
          rw [heq] at h2
          exact h2
      · cases h
        exact keep_self _
    | rul rl ca c =>
      show Keep c r
      simp only [run] at h
      cases rl with
      | numberFn => cases h; exact keep_of_fields rfl rfl rfl
      | stringFn => cases h; exact keep_of_fields rfl rfl rfl
      | literalFn => exact keep_literal h
      | unaryFn => exact ih _ _ h
      | binaryFn => exact ih _ _ h
    | una ca c =>
      show Keep c r
      simp only [run] at h
      obtain ⟨c1, h1, h2⟩ := bind_ok h
      have k1 : Keep c c1 := ih _ _ h1
      split at h2
      · cases h2; exact keep_trans k1 (keep_of_fields rfl rfl rfl)
      · cases h2; exact keep_trans k1 (keep_of_fields rfl rfl rfl)
      · simp at h2
    | bin ca c =>
      show Keep c r
      simp only [run] at h
      obtain ⟨c1, h1, h2⟩ := bind_ok h
      cases h2
      exact keep_trans (ih _ _ h1) (keep_emitBinaryOp _ _)
    | expr c =>
      show Keep c r
      simp only [run] at h
      exact ih _ _ h
    | retSt c =>
      show Keep c r
      simp only [run] at h
      split at h
      · rename_i c1 heq
        cases h
        have hk := keep_matchTok c TokenType.Newline
        rw [heq] at hk
        exact keep_trans hk (keep_of_fields rfl rfl rfl)
      · rename_i c1 heq
        obtain ⟨c2, h1, h2⟩ := bind_ok h
        have hk : Keep c c1 := by
          have h3 := keep_matchTok c TokenType.Newline
          rw [heq] at h3
          exact h3
        have k1 : Keep c1 c2 := ih _ _ h1
        split at h2 <;> cases h2
        · refine keep_trans hk (keep_trans k1 (keep_trans ?_ (keep_expect (c2.emitOpCode .Return))))
          exact keep_of_fields rfl rfl rfl
        · exact keep_trans hk (keep_trans k1 (keep_of_fields rfl rfl rfl))
    | exprSt c =>
      show Keep c r
      simp only [run] at h
      obtain ⟨c1, h1, h2⟩ := bind_ok h
      cases h2
      refine keep_trans (ih _ _ h1) (keep_trans ?_ (keep_expect (c1.emitOpCode .Pop)))
      exact keep_of_fields rfl rfl rfl
    | stmt c =>
      show Keep c r
      simp only [run] at h
      split at h
      · rename_i c1 heq
        have hk : Keep c c1 := by
          have h2 := keep_matchTok c TokenType.Return
          rw [heq] at h2
          exact h2
        exact keep_trans hk (ih _ _ h)
      · rename_i c1 heq
        have hk : Keep c c1 := by
          have h2 := keep_matchTok c TokenType.Return
          rw [heq] at h2
          exact h2
        exact keep_trans hk (ih _ _ h)
    | decl c =>
      show Keep c r
      simp only [run] at h
      exact ih _ _ h
    | dloop c =>
      show Keep c r
      simp only [run] at h
      split at h
      · rename_i c1 heq
        cases h
        have hk := keep_matchTok c TokenType.Eof
        rw [heq] at hk
        exact hk
      · rename_i c1 heq
        obtain ⟨c2, h1, h2⟩ := bind_ok h
        have hk : Keep c c1 := by
          have h3 := keep_matchTok c TokenType.Eof
          rw [heq] at h3
          exact h3
        exact keep_trans hk (keep_trans (ih _ _ h1) (ih _ _ h2))

/-- The leading newline loop of `Compile` preserves the invariants. -/
theorem leadingLoop_keep : ∀ (fuel : Nat) (c r : Compiler),
    leadingLoop fuel c = .ok r → Keep c r := by
  intro fuel
  induction fuel with
  | zero =>
    intro c r h
    simp [leadingLoop] at h
  | succ n ih =>
    intro c r h
    rw [leadingLoop] at h
    split at h
    · exact keep_trans (keep_advance c) (ih _ _ h)
    · cases h
      exact keep_advance c

theorem errInv_init (toks : List Token) : ErrInv (NewCompiler toks) := by
  refine ⟨rfl, fun _ => rfl, ?_⟩
  simp [NewCompiler]

/-- Any completed compilation run satisfies the error invariant. -/
theorem compile_errInv {fuel : Nat} {toks : List Token} {res : Option Chunk} {st : Compiler}
    (h : Compile fuel toks = .ok (res, st)) : ErrInv st := by
  cases fuel with
  | zero => simp [Compile] at h
  | succ n =>
    rw [Compile] at h
    split at h
    case h_2 => simp at h
    case h_3 => simp at h
    case h_1 c1 heq1 =>
      split at h
      case h_2 => simp at h
      case h_3 => simp at h
      case h_1 c2 heq2 =>
        split at h
        case h_1 => simp at h
        case h_2 code _ =>
          have k1 : Keep (NewCompiler toks) c1 := leadingLoop_keep _ _ _ heq1
          have k2 : Keep c1 c2 := run_keep _ _ _ heq2
          have hinv : ErrInv c2 := (keep_trans k1 k2).2 (errInv_init toks)
          split at h <;> cases h <;> exact hinv

theorem cnGo_current_eof : ∀ (toks : List Token) (cur prev : Token), allNE toks →
    (cur.type = TokenType.Newline ∨ cur.type = TokenType.Eof) →
    ((consumeNewlinesGo toks cur prev).current.type = TokenType.Eof) := by
  intro toks
  induction toks with
  | nil =>
    intro cur prev _ hcur
    rw [consumeNewlinesGo]
    split
    · rfl
    · rename_i hne
      rcases hcur with h | h
      · exact absurd h hne
      · exact h
  | cons t ts ih =>
    intro cur prev hall hcur
    rw [consumeNewlinesGo]
    split
    · exact ih t prev (fun u hu => hall u (List.mem_cons_of_mem t hu)) (hall t (List.mem_cons_self t ts))
    · rename_i hne
      rcases hcur with h | h
      · exact absurd h hne
      · exact h

/-- A blank stream drives the leading loop of `Compile` to a state whose
current token is end-of-input with nothing emitted. -/
theorem leading_eof (toks : List Token) (hall : allNE toks) (m : Nat) :
    ∃ cL, leadingLoop (m + 1 + 1) (NewCompiler toks) = .ok cL ∧
      cL.p.current.type = TokenType.Eof ∧ cL.chunk = NewChunk := by
  rcases toks with _ | ⟨t, ts⟩
  · refine ⟨⟨⟨[], eofToken, eofToken⟩, NewChunk, false, false, []⟩, ?_, by decide, by decide⟩
    rw [leadingLoop]
    have hadv0 : (NewCompiler ([] : List Token)).advance =
        ⟨⟨[], eofToken, eofToken⟩, NewChunk, false, false, []⟩ := by decide
    rw [hadv0]
    have hcond : (Compiler.check ⟨⟨[], eofToken, eofToken⟩, NewChunk, false, false, []⟩
        TokenType.Newline) = false := by decide
    simp [hcond]
  · have ht := hall t (List.mem_cons_self t ts)
    have hts : allNE ts := fun u hu => hall u (List.mem_cons_of_mem t hu)
    rcases ht with ht | ht
    · -- leading newline: one more iteration consumes the rest
      have hadv : (NewCompiler (t :: ts)).advance =
          ⟨⟨ts, t, eofToken⟩, NewChunk, false, false, []⟩ := by
        simp [NewCompiler, NewParser, Compiler.advance, advanceLoop, Parser.SetPrevious,
          Compiler.skipNewlines, eofToken, ht]
      have hchk : (Compiler.check ⟨⟨ts, t, eofToken⟩, NewChunk, false, false, []⟩
          TokenType.Newline) = true := by
        simp [Compiler.check, ht, eofToken]
      have hstep : leadingLoop (m + 1 + 1) (NewCompiler (t :: ts)) =
          leadingLoop (m + 1) ⟨⟨ts, t, eofToken⟩, NewChunk, false, false, []⟩ := by
        rw [leadingLoop, hadv]
        simp [hchk]
      rcases ts with _ | ⟨u, us⟩
      · have hadv2 : (Compiler.advance ⟨⟨[], t, eofToken⟩, NewChunk, false, false, []⟩) =
            ⟨⟨[], eofToken, t⟩, NewChunk, false, false, []⟩ := by
          simp [Compiler.advance, advanceLoop, Parser.SetPrevious, Compiler.skipNewlines,
            Compiler.consumeNewlines, consumeNewlinesGo, eofToken, ht]
        have hcond : (Compiler.check ⟨⟨[], eofToken, t⟩, NewChunk, false, false, []⟩
            TokenType.Newline) = false := by
          simp [Compiler.check, ht, eofToken]
        refine ⟨⟨⟨[], eofToken, t⟩, NewChunk, false, false, []⟩, ?_, rfl, rfl⟩
        rw [hstep, leadingLoop, hadv2]
        simp [hcond]
      · have hu := hts u (List.mem_cons_self u us)
        have hus : allNE us := fun w hw => hts w (List.mem_cons_of_mem u hw)
        have huerr : (u.type = TokenType.Error) = False := by
          rcases hu with h | h <;> simp [h]
        have hadv2 : (Compiler.advance ⟨⟨u :: us, t, eofToken⟩, NewChunk, false, false, []⟩) =
            ⟨consumeNewlinesGo us u t, NewChunk, false, false, []⟩ := by
          simp [Compiler.advance, advanceLoop, Parser.SetPrevious, Compiler.skipNewlines,
            Compiler.consumeNewlines, huerr, ht]
        have hcur : (consumeNewlinesGo us u t).current.type = TokenType.Eof :=
          cnGo_current_eof us u t hus hu
        have hprev : (consumeNewlinesGo us u t).previous = t :=
          consumeNewlinesGo_previous us u t
        have hcond : (Compiler.check ⟨consumeNewlinesGo us u t, NewChunk, false, false, []⟩
            TokenType.Newline) = false := by
          simp [Compiler.check, hprev, hcur, ht]
        refine ⟨⟨consumeNewlinesGo us u t, NewChunk, false, false, []⟩, ?_, hcur, rfl⟩
        rw [hstep, leadingLoop, hadv2]
        simp [hcond]
    · -- leading end-of-input token: the loop exits at once
      have huerr : (t.type = TokenType.Error) = False := by simp [ht]
      have hadv : (NewCompiler (t :: ts)).advance =
          ⟨⟨ts, t, eofToken⟩, NewChunk, false, false, []⟩ := by
        simp [NewCompiler, NewParser, Compiler.advance, advanceLoop, Parser.SetPrevious,
          Compiler.skipNewlines, eofToken, huerr]
      have hchk : (Compiler.check ⟨⟨ts, t, eofToken⟩, NewChunk, false, false, []⟩
          TokenType.Newline) = false := by
        simp [Compiler.check, ht, eofToken]
      refine ⟨⟨⟨ts, t, eofToken⟩, NewChunk, false, false, []⟩, ?_, ht, rfl⟩
      rw [leadingLoop, hadv]
      simp [hchk]

/-- Claim C9: Compile is not total over all token streams: on a stream of
only newline and end-of-input tokens no statement is parsed and no code byte
is emitted, so the final-instruction patch indexes position `len(code)-1` of
an empty code sequence; Compile neither returns a chunk nor the failure
signal but crashes. -/
theorem compile_blank_crash : ∀ (toks : List Token) (fuel : Nat), allNE toks → 3 ≤ fuel →
    Compile fuel toks = .crash "index out of range" := by
  intro toks fuel hall hf
  obtain ⟨m, rfl⟩ : ∃ m, fuel = m + 1 + 1 + 1 := ⟨fuel - 3, by omega⟩
  obtain ⟨cL, hL, hcur, hchunk⟩ := leading_eof toks hall (m + 1)
  have hm : cL.matchTok TokenType.Eof = (true, cL.advance) := by
    unfold Compiler.matchTok Compiler.check
    simp [hcur]
  have hdecl : declLoop (m + 1 + 1) cL = .ok (cL.advance) := by
    simp only [declLoop, run, hm]
  have hcode : (cL.advance).chunk.code = ([] : List Nat) := by
    rw [advance_chunk, hchunk]
    rfl
  rw [Compile]
  simp only [hL, hdecl, patchLastPop, hcode, List.getLast?]

/-- Witness for C9: the two-token blank stream crashes the compiler. -/
theorem compile_blank_crash_witness :
    allNE blankToks ∧ 3 ≤ 3 ∧ Compile 3 blankToks = .crash "index out of range" :=
  ⟨by decide, by decide, compile_blank_crash blankToks 3 (by decide) (by decide)⟩

/-- Claim C1: whenever Compile completes normally, it hands back the failure
signal (`none`, Go's nil chunk) exactly when a diagnostic was recorded
(`hadError`), and otherwise hands back the completed chunk. -/
theorem compile_failure_iff_hadError :
    ∀ (fuel : Nat) (toks : List Token) (res : Option Chunk) (st : Compiler),
    Compile fuel toks = .ok (res, st) →
    ((res = none ↔ st.hadError = true) ∧ (st.hadError = false → res = some st.chunk)) := by
  intro fuel toks res st h
  cases fuel with
  | zero => simp [Compile] at h
  | succ n =>
    rw [Compile] at h
    split at h
    case h_2 => simp at h
    case h_3 => simp at h
    case h_1 c1 heq1 =>
      split at h
      case h_2 => simp at h
      case h_3 => simp at h
      case h_1 c2 heq2 =>
        split at h
        case h_1 => simp at h
        case h_2 code hp =>
          split at h
          · rename_i hhad
            cases h
            refine ⟨by simp [hhad], ?_⟩
            intro hf
            simp [hhad] at hf
          · rename_i hhad
            cases h
            have h0 : c2.hadError = false := by
              revert hhad
              cases c2.hadError <;> simp
            exact ⟨by simp [h0], fun _ => rfl⟩

/-- Witness for C1: the one-statement program `1` compiles to its chunk with
no diagnostic. -/
theorem compile_failure_iff_hadError_witness :
    (some exprOneChunk = none ↔ exprOneFinal.hadError = true) ∧
    (exprOneFinal.hadError = false → some exprOneChunk = some exprOneFinal.chunk) :=
  compile_failure_iff_hadError 30 exprOneToks (some exprOneChunk) exprOneFinal (by decide)

/-- Claim C6: once the first diagnostic is recorded, panic mode is set and
never cleared for the remainder of the compilation: `errorAt` under panic
mode is the identity (records nothing), `errorAt` outside panic mode sets
both flags and appends the diagnostic, the declaration loop started in panic
mode ends in panic mode with the diagnostics unchanged, and any completed
compilation keeps `panicMode` equal to `hadError` and records at most one
diagnostic in total (all errors after the first are dropped). -/
theorem panic_mode_sticky :
    (∀ (c : Compiler) (t : Token) (m : String), c.panicMode = true → c.errorAt t m = c) ∧
    (∀ (c : Compiler) (t : Token) (m : String), c.panicMode = false →
      (c.errorAt t m).panicMode = true ∧ (c.errorAt t m).hadError = true ∧
      (c.errorAt t m).errors = c.errors ++ [(t, m)]) ∧
    (∀ (fuel : Nat) (c st : Compiler), declLoop fuel c = .ok st → c.panicMode = true →
      st.panicMode = true ∧ st.errors = c.errors ∧ st.hadError = c.hadError) ∧
    (∀ (fuel : Nat) (toks : List Token) (res : Option Chunk) (st : Compiler),
      Compile fuel toks = .ok (res, st) →
      st.panicMode = st.hadError ∧ st.errors.length ≤ 1) := by
  refine ⟨?_, ?_, ?_, ?_⟩
  · intro c t m hp
    unfold Compiler.errorAt
    simp [hp]
  · intro c t m hp
    unfold Compiler.errorAt
    simp [hp]
  · intro fuel c st h hp
    exact (run_keep fuel (.dloop c) st h).1 hp
  · intro fuel toks res st h
    have hinv := compile_errInv h
    exact ⟨hinv.1, hinv.2.2⟩

/-- Witness for C6: a second diagnostic on an already panicked state is
dropped; a first diagnostic sets the flags; the two-error program records
exactly one diagnostic. -/
theorem panic_mode_sticky_witness :
    panickedState.errorAt (tok .Star "*") "second" = panickedState ∧
    ((NewCompiler exprOneToks).errorAt (tok .Star "*") "first").hadError = true ∧
    (firstErrFinal.panicMode = firstErrFinal.hadError ∧ firstErrFinal.errors.length ≤ 1) :=
  ⟨panic_mode_sticky.1 panickedState (tok .Star "*") "second" rfl,
   (panic_mode_sticky.2.1 (NewCompiler exprOneToks) (tok .Star "*") "first" rfl).2.1,
   panic_mode_sticky.2.2.2 30 firstErrToks none firstErrFinal (by decide)⟩

/-- Claim C10: whenever the previously consumed token is a closing brace,
`check(Newline)` is true no matter what the current token is; consequently
`match(Newline)` reports success and consumes the current token, and
`consume(Newline, message)` advances without recording a diagnostic. -/
theorem check_newline_after_rbrace :
    ∀ (c : Compiler) (msg : String), c.p.previous.type = TokenType.RightBrace →
    c.check TokenType.Newline = true ∧
    c.matchTok TokenType.Newline = (true, c.advance) ∧
    c.consume TokenType.Newline msg = c.advance := by
  intro c msg h
  have hc : c.check TokenType.Newline = true := by
    unfold Compiler.check
    simp [h]
  refine ⟨hc, ?_, ?_⟩
  · unfold Compiler.matchTok
    simp [hc]
  · unfold Compiler.consume
    simp [hc]

/-- Witness for C10: a concrete state right after a closing brace. -/
theorem check_newline_after_rbrace_witness :
    rbraceState.check TokenType.Newline = true ∧
    rbraceState.matchTok TokenType.Newline = (true, rbraceState.advance) ∧
    rbraceState.consume TokenType.Newline "Expect newline or ';'." = rbraceState.advance :=
  check_newline_after_rbrace rbraceState "Expect newline or ';'." rfl

/-- Claim C5: after a statement a newline or semicolon is demanded and its
absence is a syntax error, except exactly when the previous token was a
closing brace, the current token is a closing brace, or the previous or the
current token is end-of-input; in the exceptional cases the state is left
untouched. -/
theorem terminator_rule :
    ∀ (c : Compiler),
    (c.p.previous.type = TokenType.RightBrace → c.expectNewlineOrSemicolon = c) ∧
    (c.p.current.type = TokenType.RightBrace → c.expectNewlineOrSemicolon = c) ∧
    ((c.p.previous.type = TokenType.Eof ∨ c.p.current.type = TokenType.Eof) →
      c.expectNewlineOrSemicolon = c) ∧
    (c.p.previous.type ≠ TokenType.RightBrace → c.p.current.type ≠ TokenType.RightBrace →
     c.p.previous.type ≠ TokenType.Eof → c.p.current.type ≠ TokenType.Eof →
      ((c.p.current.type = TokenType.Semicolon → c.expectNewlineOrSemicolon = c.advance) ∧
       (c.p.current.type = TokenType.Newline → c.expectNewlineOrSemicolon = c.advance) ∧
       (c.p.current.type ≠ TokenType.Semicolon → c.p.current.type ≠ TokenType.Newline →
         c.expectNewlineOrSemicolon = c.errorAtCurrent "Expect newline or ';'." ∧
         (c.panicMode = false → (c.expectNewlineOrSemicolon).hadError = true)))) := by
  intro c
  refine ⟨?_, ?_, ?_, ?_⟩
  · intro h
    unfold Compiler.expectNewlineOrSemicolon
    simp [h]
  · intro h
    unfold Compiler.expectNewlineOrSemicolon
    simp [h]
  · intro h
    unfold Compiler.expectNewlineOrSemicolon
    rcases h with h | h <;> simp [h]
  · intro h1 h2 h3 h4
    refine ⟨?_, ?_, ?_⟩
    · intro hcur
      unfold Compiler.expectNewlineOrSemicolon Compiler.matchTok Compiler.check
      simp [h1, h2, h3, h4, hcur]
    · intro hcur
      unfold Compiler.expectNewlineOrSemicolon Compiler.matchTok Compiler.consume
        Compiler.check
      simp [h1, h2, h3, h4, hcur]
    · intro hsemi hnl
      have herr : c.expectNewlineOrSemicolon = c.errorAtCurrent "Expect newline or ';'." := by
        unfold Compiler.expectNewlineOrSemicolon Compiler.matchTok Compiler.consume
          Compiler.check
        simp [h1, h2, h3, h4, hsemi, hnl]
      refine ⟨herr, ?_⟩
      intro hp
      rw [herr]
      unfold Compiler.errorAtCurrent Compiler.errorAt
      simp [hp]

/-- Witness for C5: the closing-brace exception, the semicolon consumption
and the missing-terminator diagnostic at concrete states. -/
theorem terminator_rule_witness :
    rbraceState.expectNewlineOrSemicolon = rbraceState ∧
    stateSemi.expectNewlineOrSemicolon = stateSemi.advance ∧
    stateNoTerm.expectNewlineOrSemicolon = stateNoTerm.errorAtCurrent "Expect newline or ';'." :=
  ⟨(terminator_rule rbraceState).1 rfl,
   ((terminator_rule stateSemi).2.2.2 (by decide) (by decide) (by decide) (by decide)).1 rfl,
   (((terminator_rule stateNoTerm).2.2.2 (by decide) (by decide) (by decide)
      (by decide)).2.2 (by decide) (by decide)).1⟩

/-- Claim C2: the final patch of Compile rewrites the byte at position
`len(code)-1` to the Return opcode exactly when it is the Pop opcode and
leaves the code unchanged otherwise; through full compilations, the bare
expression `1` ends in a patched Return while `return 1` is left unchanged. -/
theorem patch_last_pop :
    (∀ (code : List Nat) (b : Nat), code.getLast? = some b →
      ((b = OpCode.Pop.byte → patchLastPop code = some (code.dropLast ++ [OpCode.Return.byte])) ∧
       (b ≠ OpCode.Pop.byte → patchLastPop code = some code))) ∧
    resultCode (Compile 30 exprOneToks) = some [0, 0, 0, 5] ∧
    resultCode (Compile 30 returnOneToks) = some [0, 0, 0, 5] := by
  refine ⟨?_, by decide, by decide⟩
  intro code b h
  constructor
  · intro hb
    unfold patchLastPop
    rw [h]
    simp [hb]
  · intro hb
    unfold patchLastPop
    rw [h]
    simp [hb]

/-- Witness for C2: patching `[0, 4]` rewrites the trailing Pop byte to
Return; `[0, 5]` is left unchanged. -/
theorem patch_last_pop_witness :
    patchLastPop [0, 4] = some [0, 5] ∧ patchLastPop [0, 5] = some [0, 5] := by
  constructor
  · have h := (patch_last_pop.1 [0, 4] 4 rfl).1 (by decide)
    simpa using h
  · exact (patch_last_pop.1 [0, 5] 5 rfl).2 (by decide)

/-- Claim C4: `binary` always parses its right operand at its operator's
table level plus one, for every operator token type; hence every binary
operator associates to the left, including `^`: the program `1 ^ 2 ^ 3`
compiles to the code of `(1 ^ 2) ^ 3` (constant 0, constant 1, Exponentiate,
constant 2, Exponentiate, Return). -/
theorem binary_left_assoc :
    (∀ (fuel : Nat) (ca : Bool) (c : Compiler),
      binary (fuel + 1) ca c =
        Outcome.bind (parsePrecedence fuel ((parseRules c.p.previous.type).precedence + 1) c)
          (fun c1 => .ok (emitBinaryOp c.p.previous.type c1))) ∧
    resultCode (Compile 30 caretChainToks) = some [0, 0, 0, 0, 0, 1, 12, 0, 0, 2, 12, 5] := by
  refine ⟨?_, by decide⟩
  intro fuel ca c
  rfl

/-- Claim C3: `parsePrecedence` consumes one token; when the consumed
token's type has no prefix rule it records exactly the diagnostic "Expect
expression." at that token and returns, emitting nothing and invoking no
rule; when a prefix rule exists it is invoked and then the infix loop runs:
it stops as soon as the current token's table level does not strictly exceed
the minimum level, and while it strictly exceeds it, the loop consumes the
token and invokes its infix rule. -/
theorem parsePrecedence_dispatch :
    ∀ (fuel minLevel : Nat) (c : Compiler),
    ((parseRules (c.advance).p.previous.type).pfx = none →
      parsePrecedence (fuel + 1) minLevel c = .ok ((c.advance).error "Expect expression.") ∧
      ((c.advance).error "Expect expression.").chunk = c.chunk ∧
      ((c.advance).panicMode = false →
        ((c.advance).error "Expect expression.").errors =
          (c.advance).errors ++ [((c.advance).p.previous, "Expect expression.")])) ∧
    (∀ r, (parseRules (c.advance).p.previous.type).pfx = some r →
      parsePrecedence (fuel + 1) minLevel c =
        Outcome.bind (runRule fuel r (decide (minLevel < PrecedenceAssignment)) (c.advance))
          (fun c1 =>
            Outcome.bind (infixLoop fuel minLevel (decide (minLevel < PrecedenceAssignment)) c1)
              (fun c2 => assignTail fuel (decide (minLevel < PrecedenceAssignment)) c2))) ∧
    (∀ (ca : Bool) (c1 : Compiler), (parseRules c1.p.current.type).precedence ≤ minLevel →
      infixLoop (fuel + 1) minLevel ca c1 = .ok c1) ∧
    (∀ (ca : Bool) (c1 : Compiler) (r : RuleFn),
      minLevel < (parseRules c1.p.current.type).precedence →
      (parseRules (c1.advance).p.previous.type).ifx = some r →
      infixLoop (fuel + 1) minLevel ca c1 =
        Outcome.bind (runRule fuel r ca (c1.advance))
          (fun c2 => infixLoop fuel minLevel ca c2)) := by
  intro fuel minLevel c
  refine ⟨?_, ?_, ?_, ?_⟩
  · intro h
    refine ⟨?_, by simp, ?_⟩
    · simp only [parsePrecedence, run, h]
    · intro hp
      unfold Compiler.error Compiler.errorAt
      simp [hp]
  · intro r h
    simp only [parsePrecedence, run, h, runRule, infixLoop, assignTail]
  · intro ca c1 hle
    simp only [infixLoop, run]
    simp [Nat.not_lt.mpr hle]
  · intro ca c1 r hlt h
    simp only [infixLoop, run, runRule]
    simp [hlt, h]

/-- Witness for C3: on `+ ...` the prefix lookup fails and exactly the
"Expect expression." diagnostic is recorded; on `2 ...` the number rule is
dispatched; the infix loop stops at a level-0 current token and steps at the
`+` token. -/
theorem parsePrecedence_dispatch_witness :
    parsePrecedence 6 PrecedenceAssignment noPfxState =
      .ok ((noPfxState.advance).error "Expect expression.") ∧
    ((noPfxState.advance).error "Expect expression.").errors =
      (noPfxState.advance).errors ++ [((noPfxState.advance).p.previous, "Expect expression.")] ∧
    (parsePrecedence 6 PrecedenceAssignment numPfxState =
      Outcome.bind (runRule 5 RuleFn.numberFn
          (decide (PrecedenceAssignment < PrecedenceAssignment)) (numPfxState.advance))
        (fun c1 =>
          Outcome.bind (infixLoop 5 PrecedenceAssignment
              (decide (PrecedenceAssignment < PrecedenceAssignment)) c1)
            (fun c2 => assignTail 5 (decide (PrecedenceAssignment < PrecedenceAssignment)) c2))) ∧
    infixLoop 6 PrecedenceAssignment false numPfxState = .ok numPfxState ∧
    infixLoop 6 PrecedenceAssignment true plusCurState =
      Outcome.bind (runRule 5 RuleFn.binaryFn true (plusCurState.advance))
        (fun c2 => infixLoop 5 PrecedenceAssignment true c2) :=
  ⟨((parsePrecedence_dispatch 5 PrecedenceAssignment noPfxState).1 (by decide)).1,
   ((parsePrecedence_dispatch 5 PrecedenceAssignment noPfxState).1 (by decide)).2.2 (by decide),
   (parsePrecedence_dispatch 5 PrecedenceAssignment numPfxState).2.1 RuleFn.numberFn (by decide),
   (parsePrecedence_dispatch 5 PrecedenceAssignment numPfxState).2.2.1 false numPfxState
     (by decide),
   (parsePrecedence_dispatch 5 PrecedenceAssignment plusCurState).2.2.2 true plusCurState
     RuleFn.binaryFn (by decide) (by decide)⟩

/-- Claim C7: the assignment-capability flag handed to the parse rules is
true exactly when the minimum level is strictly below the Assignment level;
with the flag set, an assignment operator following the parsed expression
makes `parsePrecedence` record "Invalid assignment target." and still parse
the right-hand expression afterward; with the flag clear the assignment
check does nothing. -/
theorem assign_flag :
    ∀ (fuel minLevel : Nat) (c : Compiler),
    (∀ r, (parseRules (c.advance).p.previous.type).pfx = some r →
      minLevel < PrecedenceAssignment →
      parsePrecedence (fuel + 1) minLevel c =
        Outcome.bind (runRule fuel r true (c.advance))
          (fun c1 => Outcome.bind (infixLoop fuel minLevel true c1)
            (fun c2 => assignTail fuel true c2))) ∧
    (∀ r, (parseRules (c.advance).p.previous.type).pfx = some r →
      PrecedenceAssignment ≤ minLevel →
      parsePrecedence (fuel + 1) minLevel c =
        Outcome.bind (runRule fuel r false (c.advance))
          (fun c1 => Outcome.bind (infixLoop fuel minLevel false c1)
            (fun c2 => assignTail fuel false c2))) ∧
    (c.check TokenType.Equal = true →
      assignTail (fuel + 1) true c =
        expression fuel ((c.advance).error "Invalid assignment target.")) ∧
    (c.check TokenType.Equal = false → assignTail (fuel + 1) true c = .ok c) ∧
    (assignTail (fuel + 1) false c = .ok c) ∧
    ((c.advance).panicMode = false →
      ((c.advance).error "Invalid assignment target.").hadError = true ∧
      ((c.advance).error "Invalid assignment target.").errors =
        (c.advance).errors ++ [((c.advance).p.previous, "Invalid assignment target.")]) := by
  intro fuel minLevel c
  refine ⟨?_, ?_, ?_, ?_, ?_, ?_⟩
  · intro r h hlt
    have hd : decide (minLevel < PrecedenceAssignment) = true := decide_eq_true hlt
    simp only [parsePrecedence, run, h, hd, runRule, infixLoop, assignTail]
  · intro r h hge
    have hd : decide (minLevel < PrecedenceAssignment) = false :=
      decide_eq_false (Nat.not_lt.mpr hge)
    simp only [parsePrecedence, run, h, hd, runRule, infixLoop, assignTail]
  · intro hchk
    have hm : c.matchTok TokenType.Equal = (true, c.advance) := by
      unfold Compiler.matchTok
      simp [hchk]
    simp only [assignTail, run, hm, expression]
    simp
  · intro hchk
    have hm : c.matchTok TokenType.Equal = (false, c) := by
      unfold Compiler.matchTok
      simp [hchk]
    simp only [assignTail, run, hm]
    simp
  · rfl
  · intro hp
    unfold Compiler.error Compiler.errorAt
    simp [hp]

/-- Witness for C7: the flag instances at levels None and Assignment, and
the assignment-error path at a concrete `... = ...` state. -/
theorem assign_flag_witness :
    (parsePrecedence 6 PrecedenceNone numPfxState =
      Outcome.bind (runRule 5 RuleFn.numberFn true (numPfxState.advance))
        (fun c1 => Outcome.bind (infixLoop 5 PrecedenceNone true c1)
          (fun c2 => assignTail 5 true c2))) ∧
    (parsePrecedence 6 PrecedenceAssignment numPfxState =
      Outcome.bind (runRule 5 RuleFn.numberFn false (numPfxState.advance))
        (fun c1 => Outcome.bind (infixLoop 5 PrecedenceAssignment false c1)
          (fun c2 => assignTail 5 false c2))) ∧
    (assignTail 6 true equalCurState =
      expression 5 ((equalCurState.advance).error "Invalid assignment target.")) ∧
    (assignTail 6 false equalCurState = .ok equalCurState) ∧
    ((equalCurState.advance).error "Invalid assignment target.").hadError = true :=
  ⟨(assign_flag 5 PrecedenceNone numPfxState).1 RuleFn.numberFn (by decide) (by decide),
   (assign_flag 5 PrecedenceAssignment numPfxState).2.1 RuleFn.numberFn (by decide) (by decide),
   (assign_flag 5 0 equalCurState).2.2.1 (by decide),
   (assign_flag 5 0 equalCurState).2.2.2.2.1,
   ((assign_flag 5 0 equalCurState).2.2.2.2.2 (by decide)).1⟩

/-- Counterexample to claim C8 as stated: in `return 1 fn` the return
expression `1` is immediately followed by the function-literal introducer
`fn`, yet the code still demands a statement terminator: the compile records
"Expect newline or ';'." at the fn token and yields the failure signal
instead of skipping the requirement. -/
theorem return_fn_cex :
    errorsOf (Compile 30 returnFnSuffixToks) =
      some [(tok .Fn "fn", "Expect newline or ';'.")] ∧
    resultOf (Compile 30 returnFnSuffixToks) = some none :=
  ⟨by decide, by decide⟩

/-- Claim C8 amended: the skip test runs before the expression is parsed:
for a return-statement with an expression, the terminator requirement is
skipped exactly when the token at the start of the expression (the one right
after `return`) is the function-literal introducer fn; otherwise the
terminator is required after the expression. -/
theorem return_fn_amended :
    ∀ (fuel : Nat) (c c1 : Compiler), c.matchTok TokenType.Newline = (false, c1) →
    ((c1.check TokenType.Fn = true →
      returnStatement (fuel + 1) c =
        Outcome.bind (expression fuel c1) (fun c2 => .ok (c2.emitOpCode OpCode.Return))) ∧
     (c1.check TokenType.Fn = false →
      returnStatement (fuel + 1) c =
        Outcome.bind (expression fuel c1)
          (fun c2 => .ok ((c2.emitOpCode OpCode.Return).expectNewlineOrSemicolon)))) := by
  intro fuel c c1 hm
  constructor
  · intro hf
    simp only [returnStatement, run, hm, hf, expression, Bool.not_true, Bool.false_eq_true,
      if_false]
  · intro hf
    simp only [returnStatement, run, hm, hf, expression, Bool.not_false, if_true]

/-- Witness for the amended C8: at `return fn ...` the terminator check is
skipped; at `return 1 fn` it is demanded. -/
theorem return_fn_amended_witness :
    returnStatement 6 retFnState =
      Outcome.bind (expression 5 retFnState) (fun c2 => .ok (c2.emitOpCode OpCode.Return)) ∧
    returnStatement 6 retNumState =
      Outcome.bind (expression 5 retNumState)
        (fun c2 => .ok ((c2.emitOpCode OpCode.Return).expectNewlineOrSemicolon)) :=
  ⟨(return_fn_amended 5 retFnState retFnState (by decide)).1 (by decide),
   (return_fn_amended 5 retNumState retNumState (by decide)).2 (by decide)⟩

end GoBlue
